import Mathlib

/-!
Verification of the UART circular-queue layer of `obd2-instruments`
(`STM32/serial.c`).

The state of the program is shallowly embedded: the `uart_fifo_type`
struct becomes a Lean structure whose byte arrays are lists of 8-bit
values (`Fin 256`, the C `unsigned char`), the `unsigned` indices are
`Nat`, the `USART_TXEIE` bit of `USART_CR1` is a `Bool`, and the two
`unsigned long` statistics counters are `Nat` reduced modulo `2 ^ 32`.
Each C function becomes a state-passing Lean function returning the new
state together with its result (emitted byte for the interrupt handler,
`int`/`char` status as `Int` for the getters).
-/

/-- Capacity of the receive buffer, `#define UART_RXBUF_SIZE 16`. -/
abbrev UART_RXBUF_SIZE : Nat := 16

/-- Capacity of the transmit buffer, `#define UART_TXBUF_SIZE 128`. -/
abbrev UART_TXBUF_SIZE : Nat := 128

/-- Bytes are C `unsigned char` values. -/
abbrev Byte := Fin 256

/-- The queue state structure for a single UART (`uart_fifo_type`). -/
structure UartFifoType where
  rxbuf : List Byte
  txbuf : List Byte
  rxhead : Nat
  rxtail : Nat
  txhead : Nat
  txtail : Nat
deriving DecidableEq, Repr

/-- The whole mutable state touched by `serial.c`: the `uart0` fifo record,
the `USART_TXEIE` bit of `USART_CR1`, and the two statistics counters
`serial_txbytes` / `serial_rxbytes` (32-bit `unsigned long`). -/
structure SerialState where
  uart0 : UartFifoType
  txeie : Bool
  serial_txbytes : Nat
  serial_rxbytes : Nat
deriving DecidableEq, Repr

/-- Status input of one invocation of `ISR(USART2)`: whether `USART_SR`
has `USART_RXNE` set, whether it has `USART_TXE` set, and the byte read
from `USART_DR` in the receive case. -/
structure IsrInput where
  rxne : Bool
  txe : Bool
  dr : Byte
deriving DecidableEq, Repr

/-- Index increment with wraparound, the two-line pattern repeated in
`serial.c`: `i = x + 1; if (i >= SIZE) i = 0;`. -/
def wrapInc (cap i : Nat) : Nat :=
  if i + 1 ≥ cap then 0 else i + 1

/-- Receive path of `ISR(USART2)` (lines 125-135), executed when
`USART_RXNE` is set: `c` is the byte read from `USART_DR`.  The byte is
stored and `rxhead` advanced only if the queue is not full;
`serial_rxbytes` is incremented unconditionally. -/
def isrRxPath (c : Byte) (s : SerialState) : SerialState :=
  let i := wrapInc UART_RXBUF_SIZE s.uart0.rxhead
  let s1 :=
    if i ≠ s.uart0.rxtail then
      { s with uart0 := { s.uart0 with
          rxbuf := s.uart0.rxbuf.set s.uart0.rxhead c,
          rxhead := i } }
    else s
  { s1 with serial_rxbytes := (s1.serial_rxbytes + 1) % 2 ^ 32 }

/-- Transmit path of `ISR(USART2)` (lines 136-147), executed when
`USART_TXE` is set.  If the transmit queue is nonempty the byte at
`txtail` is written to `USART_DR` (returned as `some` byte) and `txtail`
advanced; otherwise the `USART_TXEIE` interrupt enable is cleared.
`serial_txbytes` is incremented in both cases. -/
def isrTxPath (s : SerialState) : SerialState × Option Byte :=
  let i := s.uart0.txtail
  if i ≠ s.uart0.txhead then
    ({ s with
        uart0 := { s.uart0 with txtail := wrapInc UART_TXBUF_SIZE i },
        serial_txbytes := (s.serial_txbytes + 1) % 2 ^ 32 },
     some (s.uart0.txbuf.getD i 0))
  else
    ({ s with
        txeie := false,
        serial_txbytes := (s.serial_txbytes + 1) % 2 ^ 32 },
     none)

/-- The whole handler `ISR(USART2)` (lines 118-148): the receive path runs
first when `USART_RXNE` is set, then the transmit path when `USART_TXE`
is set.  The second component is the byte written to `USART_DR`, if any. -/
def isrUsart2 (inp : IsrInput) (s : SerialState) : SerialState × Option Byte :=
  let s1 := if inp.rxne then isrRxPath inp.dr s else s
  if inp.txe then isrTxPath s1 else (s1, none)

/-- `uart_getch` (lines 153-167): return the next byte of the receive
fifo as a zero-extended `int`, or `-1` if the fifo is empty. -/
def uart_getch (s : SerialState) : SerialState × Int :=
  let i := s.uart0.rxtail
  let j := s.uart0.rxhead
  if i ≠ j then
    ({ s with uart0 := { s.uart0 with rxtail := wrapInc UART_RXBUF_SIZE i } },
     ((s.uart0.rxbuf.getD i 0 : Byte) : Nat))
  else
    (s, -1)

/-- `uart_putch` (lines 173-187): put byte `c` on the transmit queue.
Returns `0` on success (also enabling the `USART_TXEIE` interrupt), `-1`
with the state untouched if the queue is full. -/
def uart_putch (c : Byte) (s : SerialState) : SerialState × Int :=
  let i := wrapInc UART_TXBUF_SIZE s.uart0.txhead
  let j := s.uart0.txtail
  if i = j then
    (s, -1)
  else
    ({ s with
        uart0 := { s.uart0 with
          txbuf := s.uart0.txbuf.set s.uart0.txhead c,
          txhead := i },
        txeie := true },
     0)

/-- `setup_uart` (lines 194-219), restricted to the modelled state: both
counters and all four indices are zeroed, and the final assignment
`USART_CR1 = USART_UE | USART_TE | USART_RE | USART_RXNEIE` leaves the
`USART_TXEIE` bit clear. -/
def setup_uart (s : SerialState) : SerialState :=
  { s with
    serial_txbytes := 0,
    serial_rxbytes := 0,
    uart0 := { s.uart0 with rxhead := 0, txhead := 0, rxtail := 0, txtail := 0 },
    txeie := false }

/-! ### Iterated operations -/

/-- Run `uart_putch` on each byte of `cs` in order, collecting the
returned statuses. -/
def putchRun : List Byte → SerialState → SerialState × List Int
  | [], s => (s, [])
  | c :: cs, s =>
    let p := uart_putch c s
    let q := putchRun cs p.1
    (q.1, p.2 :: q.2)

/-- Run `n` transmit-ready invocations of `ISR(USART2)` (status has only
`USART_TXE` set), collecting the bytes written to `USART_DR`. -/
def isrTxRun : Nat → SerialState → SerialState × List (Option Byte)
  | 0, s => (s, [])
  | n + 1, s =>
    let p := isrUsart2 ⟨false, true, 0⟩ s
    let q := isrTxRun n p.1
    (q.1, p.2 :: q.2)

/-- Run one receive invocation of `ISR(USART2)` per byte of `cs` (status
has only `USART_RXNE` set, `USART_DR` holding the byte). -/
def isrRxRun : List Byte → SerialState → SerialState
  | [], s => s
  | c :: cs, s => isrRxRun cs (isrUsart2 ⟨true, false, c⟩ s).1

/-- Run `uart_getch` `n` times, collecting the returned `int` values. -/
def getchRun : Nat → SerialState → SerialState × List Int
  | 0, s => (s, [])
  | n + 1, s =>
    let p := uart_getch s
    let q := getchRun n p.1
    (q.1, p.2 :: q.2)

/-! ### Abstraction: the logical contents of a circular queue -/

/-- The `n` bytes of circular buffer `buf` (capacity `cap`) starting at
index `t`, oldest first. -/
def ringList (buf : List Byte) (cap : Nat) : Nat → Nat → List Byte
  | _, 0 => []
  | t, n + 1 => buf.getD t 0 :: ringList buf cap ((t + 1) % cap) n

/-- Number of bytes queued in the receive fifo. -/
def rxCount (s : SerialState) : Nat :=
  (s.uart0.rxhead + UART_RXBUF_SIZE - s.uart0.rxtail) % UART_RXBUF_SIZE

/-- Number of bytes queued in the transmit fifo. -/
def txCount (s : SerialState) : Nat :=
  (s.uart0.txhead + UART_TXBUF_SIZE - s.uart0.txtail) % UART_TXBUF_SIZE

/-- Logical contents of the receive fifo, oldest first. -/
def rxQueue (s : SerialState) : List Byte :=
  ringList s.uart0.rxbuf UART_RXBUF_SIZE s.uart0.rxtail (rxCount s)

/-- Logical contents of the transmit fifo, oldest first. -/
def txQueue (s : SerialState) : List Byte :=
  ringList s.uart0.txbuf UART_TXBUF_SIZE s.uart0.txtail (txCount s)

/-- All four indices are valid offsets into their arrays. -/
def indicesValid (s : SerialState) : Prop :=
  s.uart0.rxhead < UART_RXBUF_SIZE ∧ s.uart0.rxtail < UART_RXBUF_SIZE ∧
  s.uart0.txhead < UART_TXBUF_SIZE ∧ s.uart0.txtail < UART_TXBUF_SIZE

instance (s : SerialState) : Decidable (indicesValid s) := by
  unfold indicesValid; infer_instance

/-- A concrete freshly-initialised state: both buffers zeroed, all
indices zero, interrupt disabled, counters zero. -/
def sampleState : SerialState :=
  ⟨⟨List.replicate UART_RXBUF_SIZE 0, List.replicate UART_TXBUF_SIZE 0, 0, 0, 0, 0⟩,
   false, 0, 0⟩

/-- A concrete state whose transmit queue is full:
`(txhead + 1) % UART_TXBUF_SIZE = txtail` with `txhead = 0`, `txtail = 1`. -/
def sampleTxFull : SerialState :=
  ⟨⟨List.replicate UART_RXBUF_SIZE 0, List.replicate UART_TXBUF_SIZE 0, 0, 0, 0, 1⟩,
   false, 0, 0⟩

/-- A concrete state whose receive queue is full:
`(rxhead + 1) % UART_RXBUF_SIZE = rxtail` with `rxhead = 0`, `rxtail = 1`. -/
def sampleRxFull : SerialState :=
  ⟨⟨List.replicate UART_RXBUF_SIZE 0, List.replicate UART_TXBUF_SIZE 0, 0, 1, 0, 0⟩,
   false, 0, 0⟩

/-! ### Helper lemmas on `wrapInc`, `List.getD`, and `ringList` -/

lemma wrapInc_eq_mod (cap i : Nat) (h : i < cap) : wrapInc cap i = (i + 1) % cap := by
  unfold wrapInc
  split
  · have e : i + 1 = cap := by omega
    rw [e, Nat.mod_self]
  · rw [Nat.mod_eq_of_lt (by omega)]

lemma wrapInc_lt (cap i : Nat) (h : 0 < cap) : wrapInc cap i < cap := by
  unfold wrapInc
  split
  · exact h
  · omega

lemma getD_set_ne (l : List Byte) (i j : Nat) (x d : Byte) (h : i ≠ j) :
    (l.set i x).getD j d = l.getD j d := by
  simp [List.getD_eq_getElem?_getD, List.getElem?_set_ne h]

lemma getD_set_self (l : List Byte) (i : Nat) (x d : Byte) (h : i < l.length) :
    (l.set i x).getD i d = x := by
  simp [List.getD_eq_getElem?_getD, List.getElem?_set_self, h]

lemma ringList_snoc (buf : List Byte) (cap : Nat) (n : Nat) :
    ∀ t, t < cap →
      ringList buf cap t (n + 1) = ringList buf cap t n ++ [buf.getD ((t + n) % cap) 0] := by
  induction n with
  | zero => intro t ht; simp [ringList, Nat.mod_eq_of_lt ht]
  | succ n ih =>
    intro t ht
    have hcap : 0 < cap := Nat.lt_of_le_of_lt (Nat.zero_le t) ht
    have e1 : ringList buf cap t (n + 1 + 1) =
        buf.getD t 0 :: ringList buf cap ((t + 1) % cap) (n + 1) := rfl
    have e2 : ringList buf cap t (n + 1) =
        buf.getD t 0 :: ringList buf cap ((t + 1) % cap) n := rfl
    rw [e1, ih ((t + 1) % cap) (Nat.mod_lt _ hcap), e2, Nat.mod_add_mod]
    have e3 : t + 1 + n = t + (n + 1) := by omega
    rw [e3, List.cons_append]

lemma ringList_set_ne (buf : List Byte) (cap j : Nat) (c : Byte) (n : Nat) :
    ∀ t, t < cap → (∀ k, k < n → (t + k) % cap ≠ j) →
      ringList (buf.set j c) cap t n = ringList buf cap t n := by
  induction n with
  | zero => intro t _ _; rfl
  | succ n ih =>
    intro t ht hj
    have hcap : 0 < cap := Nat.lt_of_le_of_lt (Nat.zero_le t) ht
    have hjt : j ≠ t := by
      have h0 := hj 0 (Nat.succ_pos n)
      rw [Nat.add_zero, Nat.mod_eq_of_lt ht] at h0
      exact fun h => h0 h.symm
    show (buf.set j c).getD t 0 :: ringList (buf.set j c) cap ((t + 1) % cap) n =
      buf.getD t 0 :: ringList buf cap ((t + 1) % cap) n
    rw [getD_set_ne buf j t c 0 hjt]
    congr 1
    refine ih ((t + 1) % cap) (Nat.mod_lt _ hcap) ?_
    intro k hk
    rw [Nat.mod_add_mod]
    have e : t + 1 + k = t + (k + 1) := by omega
    rw [e]
    exact hj (k + 1) (by omega)

lemma ringList_push (buf : List Byte) (cap h t n : Nat) (c : Byte)
    (ht : t < cap) (hlen : buf.length = cap)
    (hn : n + 1 < cap) (hht : h = (t + n) % cap) :
    ringList (buf.set h c) cap t (n + 1) = ringList buf cap t n ++ [c] := by
  rw [ringList_snoc _ _ _ _ ht, ringList_set_ne _ _ _ _ _ _ ht ?pos]
  · rw [← hht, getD_set_self _ _ _ _ (by rw [hlen, hht]; exact Nat.mod_lt _ (by omega))]
  case pos =>
    intro k hk heq
    rw [hht] at heq
    have hdvd : cap ∣ (t + n) - (t + k) := (Nat.modEq_iff_dvd' (by omega)).mp heq
    have hle := Nat.le_of_dvd (by omega) hdvd
    omega

/-! ### Transmit-side single-operation lemmas -/

lemma uart_putch_not_full (c : Byte) (s : SerialState)
    (hh : s.uart0.txhead < UART_TXBUF_SIZE)
    (hfull : (s.uart0.txhead + 1) % UART_TXBUF_SIZE ≠ s.uart0.txtail) :
    uart_putch c s =
      ({ s with
          uart0 := { s.uart0 with
            txbuf := s.uart0.txbuf.set s.uart0.txhead c,
            txhead := (s.uart0.txhead + 1) % UART_TXBUF_SIZE },
          txeie := true }, 0) := by
  simp only [uart_putch, wrapInc_eq_mod _ _ hh, if_neg hfull]

lemma uart_putch_full_lemma (c : Byte) (s : SerialState)
    (hh : s.uart0.txhead < UART_TXBUF_SIZE)
    (hfull : (s.uart0.txhead + 1) % UART_TXBUF_SIZE = s.uart0.txtail) :
    uart_putch c s = (s, -1) := by
  simp only [uart_putch, wrapInc_eq_mod _ _ hh, if_pos hfull]

lemma isrTx_nonempty (s : SerialState) (hne : s.uart0.txtail ≠ s.uart0.txhead) :
    isrUsart2 ⟨false, true, 0⟩ s =
      ({ s with
          uart0 := { s.uart0 with txtail := wrapInc UART_TXBUF_SIZE s.uart0.txtail },
          serial_txbytes := (s.serial_txbytes + 1) % 2 ^ 32 },
       some (s.uart0.txbuf.getD s.uart0.txtail 0)) := by
  simp [isrUsart2, isrTxPath, hne]

lemma isrTx_empty (s : SerialState) (he : s.uart0.txtail = s.uart0.txhead) :
    isrUsart2 ⟨false, true, 0⟩ s =
      ({ s with txeie := false, serial_txbytes := (s.serial_txbytes + 1) % 2 ^ 32 },
       none) := by
  simp [isrUsart2, isrTxPath, he]

/-! ### Transmit-side run lemmas -/

lemma putchRun_spec (cs : List Byte) :
    ∀ s : SerialState,
      s.uart0.txhead < UART_TXBUF_SIZE → s.uart0.txtail < UART_TXBUF_SIZE →
      s.uart0.txbuf.length = UART_TXBUF_SIZE →
      txCount s + cs.length ≤ UART_TXBUF_SIZE - 1 →
      (putchRun cs s).2 = List.replicate cs.length 0 ∧
      (putchRun cs s).1.uart0.txhead < UART_TXBUF_SIZE ∧
      (putchRun cs s).1.uart0.txtail = s.uart0.txtail ∧
      (putchRun cs s).1.uart0.txbuf.length = UART_TXBUF_SIZE ∧
      txCount (putchRun cs s).1 = txCount s + cs.length ∧
      txQueue (putchRun cs s).1 = txQueue s ++ cs := by
  induction cs with
  | nil =>
    intro s hh ht hlen _
    simpa [putchRun] using ⟨hh, hlen⟩
  | cons c cs ih =>
    intro s hh ht hlen hroom
    have hcnt : txCount s + (c :: cs).length ≤ UART_TXBUF_SIZE - 1 := hroom
    simp only [List.length_cons, UART_TXBUF_SIZE] at hcnt
    have hfull : (s.uart0.txhead + 1) % UART_TXBUF_SIZE ≠ s.uart0.txtail := by
      unfold txCount at hcnt
      simp only [UART_TXBUF_SIZE] at *
      omega
    have hrun : putchRun (c :: cs) s =
        ((putchRun cs (uart_putch c s).1).1,
         (uart_putch c s).2 :: (putchRun cs (uart_putch c s).1).2) := rfl
    rw [hrun, uart_putch_not_full c s hh hfull]
    set s1 : SerialState :=
      { s with
        uart0 := { s.uart0 with
          txbuf := s.uart0.txbuf.set s.uart0.txhead c,
          txhead := (s.uart0.txhead + 1) % UART_TXBUF_SIZE },
        txeie := true } with hs1
    have hh1 : s1.uart0.txhead < UART_TXBUF_SIZE := by
      rw [hs1]; exact Nat.mod_lt _ (by omega)
    have ht1 : s1.uart0.txtail = s.uart0.txtail := rfl
    have hlen1 : s1.uart0.txbuf.length = UART_TXBUF_SIZE := by
      rw [hs1]; simpa [List.length_set] using hlen
    have hc1 : txCount s1 = txCount s + 1 := by
      rw [hs1]
      unfold txCount
      simp only [UART_TXBUF_SIZE] at *
      unfold txCount at hcnt
      simp only [UART_TXBUF_SIZE] at hcnt
      omega
    have hroom1 : txCount s1 + cs.length ≤ UART_TXBUF_SIZE - 1 := by
      rw [hc1]; simp only [UART_TXBUF_SIZE] at *; omega
    have hq1 : txQueue s1 = txQueue s ++ [c] := by
      rw [txQueue, hc1]
      have hb1 : s1.uart0.txbuf = s.uart0.txbuf.set s.uart0.txhead c := rfl
      have htt1 : s1.uart0.txtail = s.uart0.txtail := rfl
      rw [hb1, htt1]
      refine ringList_push _ _ _ _ _ _ ht hlen ?_ ?_
      · unfold txCount at hcnt; simp only [UART_TXBUF_SIZE] at *; omega
      · unfold txCount; simp only [UART_TXBUF_SIZE] at *; omega
    obtain ⟨ih1, ih2, ih3, ih4, ih5, ih6⟩ := ih s1 hh1 (ht1 ▸ ht) hlen1 hroom1
    refine ⟨?_, ih2, by rw [ih3, ht1], ih4, ?_, ?_⟩
    · simp [ih1, List.replicate_succ]
    · rw [ih5, hc1]; simp only [List.length_cons]; omega
    · rw [ih6, hq1, List.append_assoc, List.singleton_append]

lemma isrTxRun_spec (n : Nat) :
    ∀ s : SerialState,
      s.uart0.txhead < UART_TXBUF_SIZE → s.uart0.txtail < UART_TXBUF_SIZE →
      n ≤ txCount s →
      (isrTxRun n s).2 = ((txQueue s).take n).map some ∧
      (isrTxRun n s).1.uart0.txhead = s.uart0.txhead ∧
      (isrTxRun n s).1.uart0.txtail < UART_TXBUF_SIZE ∧
      (isrTxRun n s).1.uart0.txbuf = s.uart0.txbuf ∧
      (isrTxRun n s).1.txeie = s.txeie ∧
      txCount (isrTxRun n s).1 = txCount s - n ∧
      txQueue (isrTxRun n s).1 = (txQueue s).drop n := by
  induction n with
  | zero =>
    intro s hh ht _
    simpa [isrTxRun] using ht
  | succ n ih =>
    intro s hh ht hn
    have hne : s.uart0.txtail ≠ s.uart0.txhead := by
      intro he
      unfold txCount at hn
      simp only [UART_TXBUF_SIZE] at hn
      omega
    have hrun : isrTxRun (n + 1) s =
        ((isrTxRun n (isrUsart2 ⟨false, true, 0⟩ s).1).1,
         (isrUsart2 ⟨false, true, 0⟩ s).2 ::
           (isrTxRun n (isrUsart2 ⟨false, true, 0⟩ s).1).2) := rfl
    have hstep := isrTx_nonempty s hne
    rw [wrapInc_eq_mod _ _ ht] at hstep
    rw [hrun, hstep]
    set s1 : SerialState :=
      { s with
        uart0 := { s.uart0 with txtail := (s.uart0.txtail + 1) % UART_TXBUF_SIZE },
        serial_txbytes := (s.serial_txbytes + 1) % 2 ^ 32 } with hs1
    have hh1 : s1.uart0.txhead = s.uart0.txhead := rfl
    have ht1 : s1.uart0.txtail < UART_TXBUF_SIZE := Nat.mod_lt _ (by omega)
    have hc1 : txCount s1 = txCount s - 1 := by
      rw [hs1]
      unfold txCount
      simp only [UART_TXBUF_SIZE] at *
      omega
    have hn1 : n ≤ txCount s1 := by rw [hc1]; omega
    obtain ⟨m, hm⟩ : ∃ m, txCount s = m + 1 := ⟨txCount s - 1, by omega⟩
    have hqs : txQueue s =
        s.uart0.txbuf.getD s.uart0.txtail 0 ::
          ringList s.uart0.txbuf UART_TXBUF_SIZE
            ((s.uart0.txtail + 1) % UART_TXBUF_SIZE) m := by
      rw [txQueue, hm]; rfl
    have hq1 : txQueue s1 = (txQueue s).drop 1 := by
      rw [txQueue, hc1, hm, hqs]
      rfl
    obtain ⟨ih1, ih2, ih3, ih4, ih5, ih6, ih7⟩ := ih s1 (hh1 ▸ hh) ht1 hn1
    refine ⟨?_, by rw [ih2, hh1], ih3, ih4, ih5, ?_, ?_⟩
    · rw [ih1, hqs, hq1, hqs]
      simp [List.take_succ_cons]
    · rw [ih6, hc1]; omega
    · rw [ih7, hq1, List.drop_drop]
      congr 1
      omega

/-! ### Receive-side single-operation lemmas -/

lemma isrRx_not_full (c : Byte) (s : SerialState)
    (hh : s.uart0.rxhead < UART_RXBUF_SIZE)
    (hfull : (s.uart0.rxhead + 1) % UART_RXBUF_SIZE ≠ s.uart0.rxtail) :
    isrUsart2 ⟨true, false, c⟩ s =
      ({ s with
          uart0 := { s.uart0 with
            rxbuf := s.uart0.rxbuf.set s.uart0.rxhead c,
            rxhead := (s.uart0.rxhead + 1) % UART_RXBUF_SIZE },
          serial_rxbytes := (s.serial_rxbytes + 1) % 2 ^ 32 }, none) := by
  simp [isrUsart2, isrRxPath, wrapInc_eq_mod _ _ hh, hfull]

lemma isrRx_full_lemma (c : Byte) (s : SerialState)
    (hh : s.uart0.rxhead < UART_RXBUF_SIZE)
    (hfull : (s.uart0.rxhead + 1) % UART_RXBUF_SIZE = s.uart0.rxtail) :
    isrUsart2 ⟨true, false, c⟩ s =
      ({ s with serial_rxbytes := (s.serial_rxbytes + 1) % 2 ^ 32 }, none) := by
  simp [isrUsart2, isrRxPath, wrapInc_eq_mod _ _ hh, hfull]

lemma uart_getch_nonempty (s : SerialState)
    (ht : s.uart0.rxtail < UART_RXBUF_SIZE)
    (hne : s.uart0.rxtail ≠ s.uart0.rxhead) :
    uart_getch s =
      ({ s with
          uart0 := { s.uart0 with
            rxtail := (s.uart0.rxtail + 1) % UART_RXBUF_SIZE } },
       ((s.uart0.rxbuf.getD s.uart0.rxtail 0).val : Int)) := by
  simp [uart_getch, wrapInc_eq_mod _ _ ht, hne]

lemma uart_getch_empty (s : SerialState) (he : s.uart0.rxtail = s.uart0.rxhead) :
    uart_getch s = (s, -1) := by
  simp [uart_getch, he]

/-! ### Receive-side run lemmas -/

lemma isrRxRun_spec (cs : List Byte) :
    ∀ s : SerialState,
      s.uart0.rxhead < UART_RXBUF_SIZE → s.uart0.rxtail < UART_RXBUF_SIZE →
      s.uart0.rxbuf.length = UART_RXBUF_SIZE →
      rxCount s + cs.length ≤ UART_RXBUF_SIZE - 1 →
      (isrRxRun cs s).uart0.rxhead < UART_RXBUF_SIZE ∧
      (isrRxRun cs s).uart0.rxtail = s.uart0.rxtail ∧
      (isrRxRun cs s).uart0.rxbuf.length = UART_RXBUF_SIZE ∧
      rxCount (isrRxRun cs s) = rxCount s + cs.length ∧
      rxQueue (isrRxRun cs s) = rxQueue s ++ cs := by
  induction cs with
  | nil =>
    intro s hh ht hlen _
    simpa [isrRxRun] using ⟨hh, hlen⟩
  | cons c cs ih =>
    intro s hh ht hlen hroom
    have hcnt : rxCount s + (c :: cs).length ≤ UART_RXBUF_SIZE - 1 := hroom
    simp only [List.length_cons, UART_RXBUF_SIZE] at hcnt
    have hfull : (s.uart0.rxhead + 1) % UART_RXBUF_SIZE ≠ s.uart0.rxtail := by
      unfold rxCount at hcnt
      simp only [UART_RXBUF_SIZE] at *
      omega
    have hrun : isrRxRun (c :: cs) s = isrRxRun cs (isrUsart2 ⟨true, false, c⟩ s).1 := rfl
    rw [hrun, isrRx_not_full c s hh hfull]
    set s1 : SerialState :=
      { s with
        uart0 := { s.uart0 with
          rxbuf := s.uart0.rxbuf.set s.uart0.rxhead c,
          rxhead := (s.uart0.rxhead + 1) % UART_RXBUF_SIZE },
        serial_rxbytes := (s.serial_rxbytes + 1) % 2 ^ 32 } with hs1
    have hh1 : s1.uart0.rxhead < UART_RXBUF_SIZE := by
      rw [hs1]; exact Nat.mod_lt _ (by omega)
    have ht1 : s1.uart0.rxtail = s.uart0.rxtail := rfl
    have hlen1 : s1.uart0.rxbuf.length = UART_RXBUF_SIZE := by
      rw [hs1]; simpa [List.length_set] using hlen
    have hc1 : rxCount s1 = rxCount s + 1 := by
      rw [hs1]
      unfold rxCount
      simp only [UART_RXBUF_SIZE] at *
      unfold rxCount at hcnt
      simp only [UART_RXBUF_SIZE] at hcnt
      omega
    have hroom1 : rxCount s1 + cs.length ≤ UART_RXBUF_SIZE - 1 := by
      rw [hc1]; simp only [UART_RXBUF_SIZE] at *; omega
    have hq1 : rxQueue s1 = rxQueue s ++ [c] := by
      rw [rxQueue, hc1]
      have hb1 : s1.uart0.rxbuf = s.uart0.rxbuf.set s.uart0.rxhead c := rfl
      have htt1 : s1.uart0.rxtail = s.uart0.rxtail := rfl
      rw [hb1, htt1]
      refine ringList_push _ _ _ _ _ _ ht hlen ?_ ?_
      · unfold rxCount at hcnt; simp only [UART_RXBUF_SIZE] at *; omega
      · unfold rxCount; simp only [UART_RXBUF_SIZE] at *; omega
    obtain ⟨ih1, ih2, ih3, ih4, ih5⟩ := ih s1 hh1 (ht1 ▸ ht) hlen1 hroom1
    refine ⟨ih1, by rw [ih2, ht1], ih3, ?_, ?_⟩
    · rw [ih4, hc1]; simp only [List.length_cons]; omega
    · rw [ih5, hq1, List.append_assoc, List.singleton_append]

lemma getchRun_spec (n : Nat) :
    ∀ s : SerialState,
      s.uart0.rxhead < UART_RXBUF_SIZE → s.uart0.rxtail < UART_RXBUF_SIZE →
      n ≤ rxCount s →
      (getchRun n s).2 = ((rxQueue s).take n).map (fun c => (c.val : Int)) ∧
      (getchRun n s).1.uart0.rxhead = s.uart0.rxhead ∧
      (getchRun n s).1.uart0.rxtail < UART_RXBUF_SIZE ∧
      (getchRun n s).1.uart0.rxbuf = s.uart0.rxbuf ∧
      rxCount (getchRun n s).1 = rxCount s - n ∧
      rxQueue (getchRun n s).1 = (rxQueue s).drop n := by
  induction n with
  | zero =>
    intro s hh ht _
    simpa [getchRun] using ht
  | succ n ih =>
    intro s hh ht hn
    have hne : s.uart0.rxtail ≠ s.uart0.rxhead := by
      intro he
      unfold rxCount at hn
      simp only [UART_RXBUF_SIZE] at hn
      omega
    have hrun : getchRun (n + 1) s =
        ((getchRun n (uart_getch s).1).1,
         (uart_getch s).2 :: (getchRun n (uart_getch s).1).2) := rfl
    rw [hrun, uart_getch_nonempty s ht hne]
    set s1 : SerialState :=
      { s with
        uart0 := { s.uart0 with
          rxtail := (s.uart0.rxtail + 1) % UART_RXBUF_SIZE } } with hs1
    have hh1 : s1.uart0.rxhead = s.uart0.rxhead := rfl
    have ht1 : s1.uart0.rxtail < UART_RXBUF_SIZE := Nat.mod_lt _ (by omega)
    have hc1 : rxCount s1 = rxCount s - 1 := by
      rw [hs1]
      unfold rxCount
      simp only [UART_RXBUF_SIZE] at *
      omega
    have hn1 : n ≤ rxCount s1 := by rw [hc1]; omega
    obtain ⟨m, hm⟩ : ∃ m, rxCount s = m + 1 := ⟨rxCount s - 1, by omega⟩
    have hqs : rxQueue s =
        s.uart0.rxbuf.getD s.uart0.rxtail 0 ::
          ringList s.uart0.rxbuf UART_RXBUF_SIZE
            ((s.uart0.rxtail + 1) % UART_RXBUF_SIZE) m := by
      rw [rxQueue, hm]; rfl
    have hq1 : rxQueue s1 = (rxQueue s).drop 1 := by
      rw [rxQueue, hc1, hm, hqs]
      rfl
    obtain ⟨ih1, ih2, ih3, ih4, ih5, ih6⟩ := ih s1 (hh1 ▸ hh) ht1 hn1
    refine ⟨?_, by rw [ih2, hh1], ih3, ih4, ?_, ?_⟩
    · rw [ih1, hqs, hq1, hqs]
      simp [List.take_succ_cons]
    · rw [ih5, hc1]; omega
    · rw [ih6, hq1, List.drop_drop]
      congr 1
      omega

/-! ### Composition of runs -/

lemma putchRun_append (as bs : List Byte) :
    ∀ s : SerialState,
      putchRun (as ++ bs) s =
        ((putchRun bs (putchRun as s).1).1,
         (putchRun as s).2 ++ (putchRun bs (putchRun as s).1).2) := by
  induction as with
  | nil => intro s; simp [putchRun]
  | cons a as ih =>
    intro s
    simp only [List.cons_append, putchRun, List.append_eq]
    rw [ih]

lemma isrTxRun_add (m n : Nat) :
    ∀ s : SerialState,
      isrTxRun (m + n) s =
        ((isrTxRun n (isrTxRun m s).1).1,
         (isrTxRun m s).2 ++ (isrTxRun n (isrTxRun m s).1).2) := by
  induction m with
  | zero => intro s; simp [isrTxRun]
  | succ m ih =>
    intro s
    have e : m + 1 + n = (m + n) + 1 := by omega
    rw [e]
    simp only [isrTxRun]
    rw [ih]
    simp [List.cons_append]

/-! ### Claim theorems -/

/-- Claim C1: for every sequence of `uart_putch` calls starting from an
empty transmit buffer of capacity `T = UART_TXBUF_SIZE`, exactly `T - 1`
consecutive calls return success (`0`) and the `T`-th call returns the
queue-full failure (`-1`). -/
theorem C1_putch_capacity (s : SerialState) (cs : List Byte)
    (hempty : s.uart0.txhead = s.uart0.txtail)
    (ht : s.uart0.txtail < UART_TXBUF_SIZE)
    (hlen : s.uart0.txbuf.length = UART_TXBUF_SIZE)
    (hcs : cs.length = UART_TXBUF_SIZE) :
    (putchRun cs s).2 = List.replicate (UART_TXBUF_SIZE - 1) 0 ++ [-1] := by
  have hc0 : txCount s = 0 := by
    unfold txCount; simp only [UART_TXBUF_SIZE] at *; omega
  obtain ⟨d, hd⟩ : ∃ d, cs.drop (UART_TXBUF_SIZE - 1) = [d] := by
    apply List.length_eq_one.mp
    rw [List.length_drop, hcs]
    decide
  have htk : (cs.take (UART_TXBUF_SIZE - 1)).length = UART_TXBUF_SIZE - 1 := by
    rw [List.length_take, hcs]
    decide
  have hsplit : cs = cs.take (UART_TXBUF_SIZE - 1) ++ cs.drop (UART_TXBUF_SIZE - 1) :=
    (List.take_append_drop _ cs).symm
  rw [hsplit, putchRun_append]
  obtain ⟨r1, r2, r3, r4, r5, r6⟩ := putchRun_spec (cs.take (UART_TXBUF_SIZE - 1)) s
    (hempty ▸ ht) ht hlen (by rw [hc0, htk]; omega)
  set s1 := (putchRun (cs.take (UART_TXBUF_SIZE - 1)) s).1 with hs1
  have hcnt1 : txCount s1 = UART_TXBUF_SIZE - 1 := by
    rw [r5, hc0, htk]
    decide
  have hfull1 : (s1.uart0.txhead + 1) % UART_TXBUF_SIZE = s1.uart0.txtail := by
    unfold txCount at hcnt1
    rw [r3] at *
    simp only [UART_TXBUF_SIZE] at *
    omega
  have hput := uart_putch_full_lemma d s1 r2 hfull1
  have hlast : putchRun [d] s1 = (s1, [-1]) := by
    simp [putchRun, hput]
  rw [hd]
  show ((putchRun [d] s1).1, (putchRun (cs.take (UART_TXBUF_SIZE - 1)) s).2 ++
      (putchRun [d] s1).2).2 = _
  rw [hlast, r1, htk]

/-- Claim C2: the circular buffers are FIFO queues: for every state with
an empty buffer and every sequence of `N ≤ capacity - 1` bytes,
enqueueing the bytes and then dequeueing `N` times yields the same bytes
in the same order (transmit side: `uart_putch` then the transmit-ready
handler path; receive side: the receive handler path then `uart_getch`). -/
theorem C2_fifo_order (s : SerialState) (cs : List Byte)
    (htxe : s.uart0.txhead = s.uart0.txtail)
    (htx : s.uart0.txtail < UART_TXBUF_SIZE)
    (htxlen : s.uart0.txbuf.length = UART_TXBUF_SIZE)
    (hrxe : s.uart0.rxhead = s.uart0.rxtail)
    (hrx : s.uart0.rxtail < UART_RXBUF_SIZE)
    (hrxlen : s.uart0.rxbuf.length = UART_RXBUF_SIZE) :
    (cs.length ≤ UART_TXBUF_SIZE - 1 →
      (isrTxRun cs.length (putchRun cs s).1).2 = cs.map some) ∧
    (cs.length ≤ UART_RXBUF_SIZE - 1 →
      (getchRun cs.length (isrRxRun cs s)).2 = cs.map (fun c => (c.val : Int))) := by
  constructor
  · intro hN
    have hc0 : txCount s = 0 := by
      unfold txCount; simp only [UART_TXBUF_SIZE] at *; omega
    have hq0 : txQueue s = [] := by rw [txQueue, hc0]; rfl
    obtain ⟨r1, r2, r3, r4, r5, r6⟩ := putchRun_spec cs s (htxe ▸ htx) htx htxlen
      (by rw [hc0]; omega)
    obtain ⟨d1, _, _, _, _, _, _⟩ := isrTxRun_spec cs.length (putchRun cs s).1 r2
      (r3 ▸ htx) (by rw [r5, hc0]; omega)
    rw [d1, r6, hq0, List.nil_append, List.take_length]
  · intro hN
    have hc0 : rxCount s = 0 := by
      unfold rxCount; simp only [UART_RXBUF_SIZE] at *; omega
    have hq0 : rxQueue s = [] := by rw [rxQueue, hc0]; rfl
    obtain ⟨r1, r2, r3, r4, r5⟩ := isrRxRun_spec cs s (hrxe ▸ hrx) hrx hrxlen
      (by rw [hc0]; omega)
    obtain ⟨d1, _, _, _, _, _⟩ := getchRun_spec cs.length (isrRxRun cs s) r1
      (r2 ▸ hrx) (by rw [r4, hc0]; omega)
    rw [d1, r5, hq0, List.nil_append, List.take_length]

/-- Claim C3: when the transmit buffer is full, that is
`(transmit_head + 1) mod T = transmit_tail`, `uart_putch` returns the
failure status `-1` and leaves the entire state unchanged: the byte is
not stored, no index moves, and the `USART_TXEIE` enable is untouched. -/
theorem C3_putch_full_unchanged (c : Byte) (s : SerialState)
    (hh : s.uart0.txhead < UART_TXBUF_SIZE)
    (hfull : (s.uart0.txhead + 1) % UART_TXBUF_SIZE = s.uart0.txtail) :
    uart_putch c s = (s, -1) :=
  uart_putch_full_lemma c s hh hfull

/-- Claim C4: `uart_getch` returns `-1` exactly when
`receive_head = receive_tail`; otherwise it returns the oldest buffered
byte `receive_buffer[receive_tail]` and advances `receive_tail` by one
modulo `R = UART_RXBUF_SIZE`. -/
theorem C4_getch_spec (s : SerialState)
    (ht : s.uart0.rxtail < UART_RXBUF_SIZE) :
    ((uart_getch s).2 = -1 ↔ s.uart0.rxhead = s.uart0.rxtail) ∧
    (s.uart0.rxhead ≠ s.uart0.rxtail →
      (uart_getch s).2 = ((s.uart0.rxbuf.getD s.uart0.rxtail 0).val : Int) ∧
      (uart_getch s).1.uart0.rxtail = (s.uart0.rxtail + 1) % UART_RXBUF_SIZE) := by
  by_cases he : s.uart0.rxtail = s.uart0.rxhead
  · rw [uart_getch_empty s he]
    exact ⟨by simp [he], fun hne => absurd he.symm hne⟩
  · rw [uart_getch_nonempty s ht he]
    refine ⟨⟨fun habs => ?_, fun habs => absurd habs.symm he⟩, fun _ => ⟨rfl, rfl⟩⟩
    exfalso
    omega

/-- Claim C5: when a receive event arrives while the receive buffer is
full, that is `(receive_head + 1) mod R = receive_tail`, the handler
leaves the buffer contents and both indices unchanged (the byte is
dropped) and still increments `serial_rxbytes`. -/
theorem C5_rx_overflow_drop (c : Byte) (s : SerialState)
    (hh : s.uart0.rxhead < UART_RXBUF_SIZE)
    (hfull : (s.uart0.rxhead + 1) % UART_RXBUF_SIZE = s.uart0.rxtail) :
    isrUsart2 ⟨true, false, c⟩ s =
      ({ s with serial_rxbytes := (s.serial_rxbytes + 1) % 2 ^ 32 }, none) :=
  isrRx_full_lemma c s hh hfull

/-- When the transmit queue is empty, `uart_putch` succeeds and enables
`USART_TXEIE`. -/
lemma uart_putch_empty_succeeds (c : Byte) (s : SerialState)
    (he : s.uart0.txtail = s.uart0.txhead)
    (hh : s.uart0.txhead < UART_TXBUF_SIZE) :
    (uart_putch c s).2 = 0 ∧ (uart_putch c s).1.txeie = true := by
  have hnf : (s.uart0.txhead + 1) % UART_TXBUF_SIZE ≠ s.uart0.txtail := by
    rw [he]
    simp only [UART_TXBUF_SIZE] at *
    omega
  rw [uart_putch_not_full c s hh hnf]
  exact ⟨rfl, rfl⟩

/-- Claim C6: after transmit-ready handler invocations drain the transmit
buffer to empty (one invocation per queued byte plus the final one that
finds the buffer empty), the `USART_TXEIE` enable is cleared, and a
subsequent `uart_putch` succeeds and sets it again. -/
theorem C6_txeie_rearm (s : SerialState) (c : Byte)
    (hh : s.uart0.txhead < UART_TXBUF_SIZE)
    (ht : s.uart0.txtail < UART_TXBUF_SIZE) :
    (isrTxRun (txCount s + 1) s).1.txeie = false ∧
    (uart_putch c (isrTxRun (txCount s + 1) s).1).2 = 0 ∧
    (uart_putch c (isrTxRun (txCount s + 1) s).1).1.txeie = true := by
  obtain ⟨_, d2, d3, _, _, d6, _⟩ := isrTxRun_spec (txCount s) s hh ht le_rfl
  set s1 := (isrTxRun (txCount s) s).1 with hs1
  have hempty1 : s1.uart0.txtail = s1.uart0.txhead := by
    unfold txCount at d6
    rw [d2] at d6
    simp only [UART_TXBUF_SIZE] at *
    omega
  have hfst : (isrTxRun (txCount s + 1) s).1 = (isrUsart2 ⟨false, true, 0⟩ s1).1 := by
    rw [isrTxRun_add (txCount s) 1 s]
    rfl
  rw [hfst, isrTx_empty s1 hempty1]
  refine ⟨rfl, ?_⟩
  refine uart_putch_empty_succeeds c _ ?_ ?_
  · exact hempty1
  · show s1.uart0.txhead < UART_TXBUF_SIZE
    rw [d2]
    exact hh

/-- Claim C7: every invocation of the handler with the transmit-ready
status bit set increments `serial_txbytes` by exactly one (modulo its
32-bit width), whether a byte was sent or the buffer was found empty,
and for either value of the receive status bit. -/
theorem C7_txbytes_counts_invocations (b : Bool) (d : Byte) (s : SerialState) :
    (isrUsart2 ⟨b, true, d⟩ s).1.serial_txbytes = (s.serial_txbytes + 1) % 2 ^ 32 := by
  cases b
  case false =>
    show (isrTxPath s).1.serial_txbytes = (s.serial_txbytes + 1) % 2 ^ 32
    simp only [isrTxPath]
    split
    · rfl
    · rfl
  case true =>
    have hrxb : (isrRxPath d s).serial_txbytes = s.serial_txbytes := by
      simp only [isrRxPath]
      split <;> rfl
    show (isrTxPath (isrRxPath d s)).1.serial_txbytes = (s.serial_txbytes + 1) % 2 ^ 32
    simp only [isrTxPath]
    split
    · show ((isrRxPath d s).serial_txbytes + 1) % 2 ^ 32 = (s.serial_txbytes + 1) % 2 ^ 32
      rw [hrxb]
    · show ((isrRxPath d s).serial_txbytes + 1) % 2 ^ 32 = (s.serial_txbytes + 1) % 2 ^ 32
      rw [hrxb]

/-- Claim C8: `setup_uart` always zeroes all four head/tail indices and
both byte counters, and it is idempotent: a second call leaves the state
exactly as one call does, from any starting state. -/
theorem C8_setup_zero_idempotent (s : SerialState) :
    (setup_uart s).uart0.rxhead = 0 ∧ (setup_uart s).uart0.rxtail = 0 ∧
    (setup_uart s).uart0.txhead = 0 ∧ (setup_uart s).uart0.txtail = 0 ∧
    (setup_uart s).serial_txbytes = 0 ∧ (setup_uart s).serial_rxbytes = 0 ∧
    setup_uart (setup_uart s) = setup_uart s :=
  ⟨rfl, rfl, rfl, rfl, rfl, rfl, rfl⟩

/-- Claim C9: every operation preserves the invariant that each index
lies in `[0, capacity)` for its buffer: `uart_putch`, `uart_getch`, any
invocation of `ISR(USART2)`, and `setup_uart`. -/
theorem C9_indices_stay_valid (s : SerialState) (c : Byte) (inp : IsrInput)
    (h : indicesValid s) :
    indicesValid (uart_putch c s).1 ∧ indicesValid (uart_getch s).1 ∧
    indicesValid (isrUsart2 inp s).1 ∧ indicesValid (setup_uart s) := by
  obtain ⟨h1, h2, h3, h4⟩ := h
  refine ⟨?_, ?_, ?_, ?_⟩
  · simp only [uart_putch]
    split
    · exact ⟨h1, h2, h3, h4⟩
    · exact ⟨h1, h2, wrapInc_lt _ _ (by decide), h4⟩
  · simp only [uart_getch]
    split
    · exact ⟨h1, wrapInc_lt _ _ (by decide), h3, h4⟩
    · exact ⟨h1, h2, h3, h4⟩
  · rcases inp with ⟨rxne, txe, dr⟩
    have hrx : indicesValid (isrRxPath dr s) := by
      simp only [isrRxPath]
      split
      · exact ⟨wrapInc_lt _ _ (by decide), h2, h3, h4⟩
      · exact ⟨h1, h2, h3, h4⟩
    have htx : ∀ s' : SerialState, indicesValid s' → indicesValid (isrTxPath s').1 := by
      intro s' hs'
      obtain ⟨g1, g2, g3, g4⟩ := hs'
      simp only [isrTxPath]
      split
      · exact ⟨g1, g2, g3, wrapInc_lt _ _ (by decide)⟩
      · exact ⟨g1, g2, g3, g4⟩
    cases rxne
    · cases txe
      · exact ⟨h1, h2, h3, h4⟩
      · exact htx s ⟨h1, h2, h3, h4⟩
    · cases txe
      · exact hrx
      · exact htx _ hrx
  · exact ⟨by show (0 : Nat) < 16; decide, by show (0 : Nat) < 16; decide,
      by show (0 : Nat) < 128; decide, by show (0 : Nat) < 128; decide⟩

/-- Claim C10: the value returned by `uart_getch` is either exactly `-1`
or an integer in `[0, 255]`: a stored byte is read back zero-extended,
so a buffered `0xFF` comes back as `255`, never confusable with the `-1`
empty sentinel. -/
theorem C10_getch_range (s : SerialState) :
    (uart_getch s).2 = -1 ∨ (0 ≤ (uart_getch s).2 ∧ (uart_getch s).2 ≤ 255) := by
  simp only [uart_getch]
  split
  · refine Or.inr ⟨?_, ?_⟩
    · show (0 : Int) ≤ ((s.uart0.rxbuf.getD s.uart0.rxtail 0).val : Int)
      exact Int.natCast_nonneg _
    · show ((s.uart0.rxbuf.getD s.uart0.rxtail 0).val : Int) ≤ 255
      have hlt := (s.uart0.rxbuf.getD s.uart0.rxtail 0).isLt
      omega
  · exact Or.inl rfl

/-! ### Witnesses: the claim theorems applied at concrete inputs -/

/-- Witness for C1 at a concrete zeroed state and a 128-byte input run. -/
theorem C1_putch_capacity_witness :
    (putchRun (List.replicate UART_TXBUF_SIZE (0 : Byte)) sampleState).2 =
      List.replicate (UART_TXBUF_SIZE - 1) 0 ++ [-1] :=
  C1_putch_capacity sampleState _ rfl (by decide) (by simp [sampleState]) (by simp)

/-- Witness for C2 with the three bytes `3, 7, 200` on both fifos. -/
theorem C2_fifo_order_witness :
    (isrTxRun ([3, 7, 200] : List Byte).length (putchRun [3, 7, 200] sampleState).1).2 =
      ([3, 7, 200] : List Byte).map some ∧
    (getchRun ([3, 7, 200] : List Byte).length (isrRxRun [3, 7, 200] sampleState)).2 =
      ([3, 7, 200] : List Byte).map (fun c => (c.val : Int)) :=
  ⟨(C2_fifo_order sampleState [3, 7, 200] rfl (by decide) (by simp [sampleState])
      rfl (by decide) (by simp [sampleState])).1 (by decide),
   (C2_fifo_order sampleState [3, 7, 200] rfl (by decide) (by simp [sampleState])
      rfl (by decide) (by simp [sampleState])).2 (by decide)⟩

/-- Witness for C3 at a concrete full transmit queue. -/
theorem C3_putch_full_unchanged_witness :
    uart_putch 65 sampleTxFull = (sampleTxFull, -1) :=
  C3_putch_full_unchanged 65 sampleTxFull (by decide) (by decide)

/-- Witness for C4 at a concrete nonempty receive queue. -/
theorem C4_getch_spec_witness :
    ((uart_getch sampleRxFull).2 = -1 ↔
      sampleRxFull.uart0.rxhead = sampleRxFull.uart0.rxtail) ∧
    (sampleRxFull.uart0.rxhead ≠ sampleRxFull.uart0.rxtail →
      (uart_getch sampleRxFull).2 =
        ((sampleRxFull.uart0.rxbuf.getD sampleRxFull.uart0.rxtail 0).val : Int) ∧
      (uart_getch sampleRxFull).1.uart0.rxtail =
        (sampleRxFull.uart0.rxtail + 1) % UART_RXBUF_SIZE) :=
  C4_getch_spec sampleRxFull (by decide)

/-- Witness for C5 at a concrete full receive queue. -/
theorem C5_rx_overflow_drop_witness :
    isrUsart2 ⟨true, false, 9⟩ sampleRxFull =
      ({ sampleRxFull with
          serial_rxbytes := (sampleRxFull.serial_rxbytes + 1) % 2 ^ 32 }, none) :=
  C5_rx_overflow_drop 9 sampleRxFull (by decide) (by decide)

/-- Witness for C6 at the concrete zeroed state. -/
theorem C6_txeie_rearm_witness :
    (isrTxRun (txCount sampleState + 1) sampleState).1.txeie = false ∧
    (uart_putch 1 (isrTxRun (txCount sampleState + 1) sampleState).1).2 = 0 ∧
    (uart_putch 1 (isrTxRun (txCount sampleState + 1) sampleState).1).1.txeie = true :=
  C6_txeie_rearm sampleState 1 (by decide) (by decide)

/-- Witness for C9 at a concrete valid state and a combined interrupt. -/
theorem C9_indices_stay_valid_witness :
    indicesValid (uart_putch 2 sampleRxFull).1 ∧
    indicesValid (uart_getch sampleRxFull).1 ∧
    indicesValid (isrUsart2 ⟨true, true, 5⟩ sampleRxFull).1 ∧
    indicesValid (setup_uart sampleRxFull) :=
  C9_indices_stay_valid sampleRxFull 2 ⟨true, true, 5⟩ (by decide)
